import Mathlib

/-! git-town: ship step list, ship preconditions, ChangeDirectoryStep, user search query

A shallow embedding of

* `lib/steps/change_directory_step.go` (`ChangeDirectoryStep`),
* `src/cmd/ship.go` (`checkShipPreconditions`,
  `ensureParentBranchIsMainOrPerennialBranch`, `getShipStepList`),
* `vendor/code.gitea.io/sdk/gitea/user_search.go` (`SearchUsersOption.QueryEncode`),

followed by the theorems about them.  Go functions that touch the process or
the file system are embedded as functions from a state to a result and a new
state; functions of other packages of the repository whose source is not
available are taken as fields of an environment record.
-/

/-! ## Part 1: `lib/steps/change_directory_step.go` -/

/-- What `os.Stat` reports about a path: a directory or something that is not
one (a regular file, for instance). -/
inductive FileKind where
  | directory
  | regularFile
deriving DecidableEq, Repr

/-- Go `error` values of the file-system calls. -/
inductive GoError where
  | ENOENT (path : String)
  | ENOTDIR (path : String)
  | EACCES (path : String)
deriving DecidableEq, Repr

/-- The node a path leads to: its kind, the error `chdir` into it gives when it
is a directory the process may not enter (`none` when the process may enter it),
and the absolute path, free of symbolic links, of the node. -/
structure Node where
  kind : FileKind
  chdirError : Option GoError
  realPath : String
deriving DecidableEq, Repr

/-- The process state `ChangeDirectoryStep.Run` can touch: the file system
(path resolution: the node a path leads to when resolved from a given working
directory, or the error of the resolution), the working directory of the
process as an absolute path, and the commands printed so far. -/
structure World where
  resolve : String → String → Except GoError Node
  cwd : String
  printed : List (List String)

/-- Go standard library `os.Stat`: the file info of the path, or the error of
resolving it.  It does not change the state. -/
def os.Stat (w : World) (name : String) : Except GoError FileKind :=
  match w.resolve w.cwd name with
  | Except.ok n => Except.ok n.kind
  | Except.error e => Except.error e

/-- Go standard library `os.Chdir`: makes the directory the path leads to the
working directory; fails, leaving the working directory as it is, when the path
cannot be resolved, does not lead to a directory, or leads to a directory the
process may not enter. -/
def os.Chdir (w : World) (dir : String) : Option GoError × World :=
  match w.resolve w.cwd dir with
  | Except.error e => (some e, w)
  | Except.ok n =>
    match n.kind with
    | FileKind.regularFile => (some (GoError.ENOTDIR dir), w)
    | FileKind.directory =>
      match n.chdirError with
      | some e => (some e, w)
      | none => (none, { w with cwd := n.realPath })

/-- Modelled from the spec: `script.PrintCommand` of `lib/script` (not among the
sources) "reports the action"; the report is recorded as the printed command
with its arguments. -/
def script.PrintCommand (w : World) (cmd : List String) : World :=
  { w with printed := w.printed ++ [cmd] }

/-- The Go type `NoOpStep` (declared elsewhere in the package): no fields. -/
structure NoOpStep where
deriving DecidableEq, Repr

/-- The Go type `ChangeDirectoryStep`. -/
structure ChangeDirectoryStep where
  Directory : String
deriving DecidableEq, Repr

/-- The values of the `Step` interface of `lib/steps` that this file produces. -/
inductive Step where
  | NoOp (s : NoOpStep)
  | ChangeDirectory (s : ChangeDirectoryStep)
deriving DecidableEq, Repr

/-- `func (step ChangeDirectoryStep) CreateAbortStep() Step`. -/
def ChangeDirectoryStep.CreateAbortStep (_step : ChangeDirectoryStep) (w : World) :
    Step × World :=
  (Step.NoOp {}, w)

/-- `func (step ChangeDirectoryStep) CreateContinueStep() Step`. -/
def ChangeDirectoryStep.CreateContinueStep (_step : ChangeDirectoryStep) (w : World) :
    Step × World :=
  (Step.NoOp {}, w)

/-- `func (step ChangeDirectoryStep) CreateUndoStep() Step`. -/
def ChangeDirectoryStep.CreateUndoStep (_step : ChangeDirectoryStep) (w : World) :
    Step × World :=
  (Step.NoOp {}, w)

/-- `func (step ChangeDirectoryStep) Run() error`: the returned error (`none`
is Go's `nil`) and the state after the call. -/
def ChangeDirectoryStep.Run (step : ChangeDirectoryStep) (w : World) :
    Option GoError × World :=
  match os.Stat w step.Directory with
  | Except.ok _ =>
    let w1 := script.PrintCommand w ["cd", step.Directory]
    os.Chdir w1 step.Directory
  | Except.error _ => (none, w)

/-- A sample file system: `/repo` and `/repo/sub` are directories; from
`/repo/sub` the relative path `docs` leads to the directory `/repo/sub/docs`;
`/repo/locked` is a directory the process may not enter; `/repo/README.md` is a
regular file; nothing else exists. -/
def sampleResolve (cwd : String) (p : String) : Except GoError Node :=
  if p = "/repo" then
    Except.ok { kind := FileKind.directory, chdirError := none, realPath := "/repo" }
  else if p = "/repo/sub" then
    Except.ok { kind := FileKind.directory, chdirError := none, realPath := "/repo/sub" }
  else if p = "/repo/sub/docs" ∨ (cwd = "/repo/sub" ∧ p = "docs") then
    Except.ok { kind := FileKind.directory, chdirError := none, realPath := "/repo/sub/docs" }
  else if p = "/repo/locked" then
    Except.ok { kind := FileKind.directory, chdirError := some (GoError.EACCES p),
                realPath := "/repo/locked" }
  else if p = "/repo/README.md" then
    Except.ok { kind := FileKind.regularFile, chdirError := none,
                realPath := "/repo/README.md" }
  else Except.error (GoError.ENOENT p)

/-- A sample process state: working directory `/repo/sub`, nothing printed. -/
def sampleWorld : World :=
  { resolve := sampleResolve, cwd := "/repo/sub", printed := [] }

/-! ## Part 2: `src/cmd/ship.go` -/

/-- How a call of a Go function that may end the process comes back: it
returns a value, the process exits after printing the lines of an error message
(`util.ExitWithErrorMessage`), or the Go runtime panics. -/
inductive Outcome (α : Type) where
  | returned (a : α)
  | exited (lines : List String)
  | panicked (msg : String)
deriving DecidableEq, Repr

/-- Sequencing of calls: what follows a call runs only when the call returns. -/
def Outcome.bind {α β : Type} (x : Outcome α) (k : α → Outcome β) : Outcome β :=
  match x with
  | Outcome.returned a => k a
  | Outcome.exited ls => Outcome.exited ls
  | Outcome.panicked m => Outcome.panicked m

/-- Whether the call returned to its caller. -/
def Outcome.isReturned {α : Type} (x : Outcome α) : Bool :=
  match x with
  | Outcome.returned _ => true
  | _ => false

/-- The step types of package `src/steps` that `ship.go` builds, with the
fields it sets; `Other` stands for any step type of the package that `ship.go`
does not name (they can occur in the lists other functions return). -/
inductive steps.Step where
  | CheckoutBranchStep (BranchName : String)
  | MergeTrackingBranchStep
  | MergeBranchStep (BranchName : String)
  | EnsureHasShippableChangesStep (BranchName : String)
  | SquashMergeBranchStep (BranchName : String) (CommitMessage : String)
  | PushBranchStep (BranchName : String) (Undoable : Bool)
  | DeleteRemoteBranchStep (BranchName : String) (IsTracking : Bool)
  | DeleteLocalBranchStep (BranchName : String)
  | DeleteParentBranchStep (BranchName : String)
  | SetParentBranchStep (BranchName : String) (ParentBranchName : String)
  | DeleteAncestorBranchesStep
  | Other (TypeName : String)
deriving DecidableEq, Repr

/-- The Go type `steps.StepList`: an ordered sequence of steps. -/
structure steps.StepList where
  List : List steps.Step
deriving DecidableEq, Repr

/-- Modelled from the spec: `StepList.Append` (not among the sources) is a
"pure sequence mutation preserving order": the step is added at the end. -/
def steps.StepList.Append (l : steps.StepList) (s : steps.Step) : steps.StepList :=
  { List := l.List ++ [s] }

/-- Modelled from the spec: `StepList.AppendList` (not among the sources)
appends "another list's steps (preserving relative order)". -/
def steps.StepList.AppendList (l : steps.StepList) (o : steps.StepList) : steps.StepList :=
  { List := l.List ++ o.List }

/-- The Go type `steps.WrapOptions`. -/
structure steps.WrapOptions where
  RunInGitRoot : Bool
  StashOpenChanges : Bool
deriving DecidableEq, Repr

/-- The Go type `shipConfig`. -/
structure shipConfig where
  BranchToShip : String
  InitialBranch : String
deriving DecidableEq, Repr

/-- What `ship.go` reads from the rest of the program, as the current state
answers it: the queries of package `git`, the package variable `commitMessage`,
and the two functions of package `steps` whose source is not available
(`GetSyncBranchSteps`, `StepList.Wrap`). -/
structure Env where
  GetCurrentBranchName : String
  HasRemote : String → Bool
  GetParentBranch : String → String
  IsMainBranch : String → Bool
  IsPerennialBranch : String → Bool
  GetAncestorBranches : String → List String
  GetChildBranches : String → List String
  HasTrackingBranch : String → Bool
  commitMessage : String
  GetSyncBranchSteps : String → steps.StepList
  Wrap : steps.WrapOptions → steps.StepList → steps.StepList

/-- The calls of `checkShipPreconditions` into other packages that may end the
process or change the state (their source is not available). -/
structure Collaborators where
  EnsureDoesNotHaveOpenChanges : Env → String → Outcome Unit
  Fetch : Env → Outcome Env
  EnsureHasBranch : Env → String → Outcome Unit
  EnsureIsFeatureBranch : Env → String → String → Outcome Unit
  EnsureKnowsParentBranches : Env → List String → Outcome Env

/-- Go slice expression `xs[lo:]`: `none` when the runtime panics with
"slice bounds out of range". -/
def goSliceFrom {α : Type} (xs : List α) (lo : Nat) : Option (List α) :=
  if lo ≤ xs.length then some (xs.drop lo) else none

/-- Go index expression `xs[i]`: `none` when the runtime panics with
"index out of range". -/
def goIndex {α : Type} (xs : List α) (i : Nat) : Option α :=
  xs.get? i

/-- Go standard library `strings.Join`. -/
def strings.Join (elems : List String) (sep : String) : String :=
  sep.intercalate elems

/-- `util.ExitWithErrorMessage(lines...)` (source not available): prints the
lines of the message and ends the process. -/
def util.ExitWithErrorMessage {α : Type} (lines : List String) : Outcome α :=
  Outcome.exited lines

/-- `func ensureParentBranchIsMainOrPerennialBranch(branchName string)`,
ship.go lines 91-102. -/
def ensureParentBranchIsMainOrPerennialBranch (env : Env) (branchName : String) :
    Outcome Unit :=
  let parentBranch := env.GetParentBranch branchName
  if !env.IsMainBranch parentBranch && !env.IsPerennialBranch parentBranch then
    let ancestors := env.GetAncestorBranches branchName
    match goSliceFrom ancestors 1 with
    | none => Outcome.panicked "slice bounds out of range"
    | some ancestorsWithoutMainOrPerennial =>
      match goIndex ancestorsWithoutMainOrPerennial 0 with
      | none => Outcome.panicked "index out of range"
      | some oldestAncestor =>
        util.ExitWithErrorMessage
          ["Shipping this branch would ship "
              ++ strings.Join ancestorsWithoutMainOrPerennial ", " ++ " as well.",
           "Please ship \"" ++ oldestAncestor ++ "\" first."]
  else
    Outcome.returned ()

/-- Lines 70-86 of `checkShipPreconditions`: everything before the call of
`ensureParentBranchIsMainOrPerennialBranch`.  Returns the configuration and the
state in which that call is made. -/
def checkShipPreconditionsUpToLine86 (c : Collaborators) (env : Env) (args : List String) :
    Outcome (shipConfig × Env) :=
  let InitialBranch := env.GetCurrentBranchName
  let BranchToShip :=
    match args with
    | [] => InitialBranch
    | a :: _ => a
  Outcome.bind
    (if BranchToShip == InitialBranch then
      c.EnsureDoesNotHaveOpenChanges env "Did you mean to commit them before shipping?"
    else Outcome.returned ())
  fun _ =>
  Outcome.bind
    (if env.HasRemote "origin" then c.Fetch env else Outcome.returned env)
  fun env1 =>
  Outcome.bind
    (if BranchToShip != InitialBranch then c.EnsureHasBranch env1 BranchToShip
    else Outcome.returned ())
  fun _ =>
  Outcome.bind
    (c.EnsureIsFeatureBranch env1 BranchToShip "Only feature branches can be shipped.")
  fun _ =>
  Outcome.bind (c.EnsureKnowsParentBranches env1 [BranchToShip])
  fun env2 =>
  Outcome.returned ({ BranchToShip := BranchToShip, InitialBranch := InitialBranch }, env2)

/-- `func checkShipPreconditions(args []string) (result shipConfig)`, ship.go
lines 69-89: lines 70-86, then the call of line 87, then the return. -/
def checkShipPreconditions (c : Collaborators) (env : Env) (args : List String) :
    Outcome (shipConfig × Env) :=
  Outcome.bind (checkShipPreconditionsUpToLine86 c env args)
  fun r =>
  Outcome.bind (ensureParentBranchIsMainOrPerennialBranch r.2 r.1.BranchToShip)
  fun _ =>
  Outcome.returned r

/-- Lines 105-129 of `getShipStepList`: the list as it stands before the call
of `result.Wrap`. -/
def getShipStepListBeforeWrap (env : Env) (config : shipConfig) : steps.StepList :=
  let branchToMergeInto := env.GetParentBranch config.BranchToShip
  let isShippingInitialBranch := config.BranchToShip == config.InitialBranch
  let result : steps.StepList := { List := [] }
  let result := result.AppendList (env.GetSyncBranchSteps branchToMergeInto)
  let result := result.Append (steps.Step.CheckoutBranchStep config.BranchToShip)
  let result := result.Append steps.Step.MergeTrackingBranchStep
  let result := result.Append (steps.Step.MergeBranchStep branchToMergeInto)
  let result := result.Append (steps.Step.EnsureHasShippableChangesStep config.BranchToShip)
  let result := result.Append (steps.Step.CheckoutBranchStep branchToMergeInto)
  let result := result.Append
    (steps.Step.SquashMergeBranchStep config.BranchToShip env.commitMessage)
  let result :=
    if env.HasRemote "origin" then
      result.Append (steps.Step.PushBranchStep branchToMergeInto true)
    else result
  let childBranches := env.GetChildBranches config.BranchToShip
  let result :=
    if env.HasTrackingBranch config.BranchToShip && childBranches.length == 0 then
      result.Append (steps.Step.DeleteRemoteBranchStep config.BranchToShip true)
    else result
  let result := result.Append (steps.Step.DeleteLocalBranchStep config.BranchToShip)
  let result := result.Append (steps.Step.DeleteParentBranchStep config.BranchToShip)
  let result := childBranches.foldl
    (fun r child => r.Append (steps.Step.SetParentBranchStep child branchToMergeInto)) result
  let result := result.Append steps.Step.DeleteAncestorBranchesStep
  let result :=
    if !isShippingInitialBranch then
      result.Append (steps.Step.CheckoutBranchStep config.InitialBranch)
    else result
  result

/-- `func getShipStepList(config shipConfig) (result steps.StepList)`, ship.go
lines 104-132: the list of lines 105-129, wrapped in line 130. -/
def getShipStepList (env : Env) (config : shipConfig) : steps.StepList :=
  let isShippingInitialBranch := config.BranchToShip == config.InitialBranch
  env.Wrap { RunInGitRoot := true, StashOpenChanges := !isShippingInitialBranch }
    (getShipStepListBeforeWrap env config)

/-- The `StepListGenerator` of `shipCmd.Run`, ship.go lines 49-52. -/
def shipStepListGenerator (c : Collaborators) (env : Env) (args : List String) :
    Outcome steps.StepList :=
  Outcome.bind (checkShipPreconditions c env args)
  fun r =>
  Outcome.returned (getShipStepList r.2 r.1)

/-- The destructive step types that `getShipStepList` appends. -/
def steps.Step.isDestructive (s : steps.Step) : Bool :=
  match s with
  | steps.Step.SquashMergeBranchStep _ _ => true
  | steps.Step.PushBranchStep _ _ => true
  | steps.Step.DeleteRemoteBranchStep _ _ => true
  | steps.Step.DeleteLocalBranchStep _ => true
  | steps.Step.DeleteParentBranchStep _ => true
  | steps.Step.SetParentBranchStep _ _ => true
  | steps.Step.DeleteAncestorBranchesStep => true
  | _ => false

/-- Whether the step is a `SetParentBranchStep`. -/
def steps.Step.isSetParentBranchStep (s : steps.Step) : Bool :=
  match s with
  | steps.Step.SetParentBranchStep _ _ => true
  | _ => false

/-- Whether the step is a `DeleteRemoteBranchStep`. -/
def steps.Step.isDeleteRemoteBranchStep (s : steps.Step) : Bool :=
  match s with
  | steps.Step.DeleteRemoteBranchStep _ _ => true
  | _ => false

/-- A sample `Wrap`: a directory guard around a stash guard around the list,
each present when its option is set. -/
def sampleWrap (o : steps.WrapOptions) (l : steps.StepList) : steps.StepList :=
  let inner :=
    if o.StashOpenChanges then
      [steps.Step.Other "StashOpenChangesStep"] ++ l.List
        ++ [steps.Step.Other "RestoreOpenChangesStep"]
    else l.List
  { List :=
      if o.RunInGitRoot then
        [steps.Step.Other "ChangeDirectoryStep"] ++ inner
          ++ [steps.Step.Other "ChangeDirectoryStep"]
      else inner }

/-- A sample state: `main` is the main branch, `feature-b` is a child of
`main`, `feature-a` a child of `feature-b`, `feature-c` and `feature-d` are
children of `feature-a`; the current branch is `feature-b`; `origin` exists and
`feature-a`, `feature-b` have tracking branches.  Ancestor lists start at the
main branch. -/
def sampleEnv : Env :=
  { GetCurrentBranchName := "feature-b"
    HasRemote := fun r => r == "origin"
    GetParentBranch := fun b =>
      if b == "feature-b" then "main"
      else if b == "feature-a" then "feature-b"
      else if b == "feature-c" || b == "feature-d" then "feature-a"
      else ""
    IsMainBranch := fun b => b == "main"
    IsPerennialBranch := fun _ => false
    GetAncestorBranches := fun b =>
      if b == "feature-b" then ["main"]
      else if b == "feature-a" then ["main", "feature-b"]
      else if b == "feature-c" || b == "feature-d" then ["main", "feature-b", "feature-a"]
      else []
    GetChildBranches := fun b =>
      if b == "feature-b" then ["feature-a"]
      else if b == "feature-a" then ["feature-c", "feature-d"]
      else []
    HasTrackingBranch := fun b => b == "feature-a" || b == "feature-b"
    commitMessage := "done"
    GetSyncBranchSteps := fun b =>
      { List := [steps.Step.CheckoutBranchStep b, steps.Step.Other "RebaseTrackingBranchStep",
                 steps.Step.PushBranchStep b false] }
    Wrap := sampleWrap }

/-- The sample state with the ancestor lists in the order the spec gives for
`AncestorsOf`: nearest first. -/
def sampleEnvNearestFirst : Env :=
  { sampleEnv with
    GetAncestorBranches := fun b => (sampleEnv.GetAncestorBranches b).reverse }

/-- A sample state for shipping a direct child of the main branch that has no
children: as `sampleEnv`, but `feature-b` has no child branches. -/
def sampleEnvLeaf : Env :=
  { sampleEnv with GetChildBranches := fun _ => [] }

/-- Sample collaborators: every check passes and no call changes the state. -/
def sampleCollaborators : Collaborators :=
  { EnsureDoesNotHaveOpenChanges := fun _ _ => Outcome.returned ()
    Fetch := fun env => Outcome.returned env
    EnsureHasBranch := fun _ _ => Outcome.returned ()
    EnsureIsFeatureBranch := fun _ _ _ => Outcome.returned ()
    EnsureKnowsParentBranches := fun env _ => Outcome.returned env }

/-- Closed form of the steps `getShipStepList` appends itself (lines 108-129),
after the sync steps of the parent branch; `getShipStepListBeforeWrap_List`
proves that the embedding of the source produces exactly these. -/
def shipOwnSteps (env : Env) (config : shipConfig) : List steps.Step :=
  [steps.Step.CheckoutBranchStep config.BranchToShip,
   steps.Step.MergeTrackingBranchStep,
   steps.Step.MergeBranchStep (env.GetParentBranch config.BranchToShip),
   steps.Step.EnsureHasShippableChangesStep config.BranchToShip,
   steps.Step.CheckoutBranchStep (env.GetParentBranch config.BranchToShip),
   steps.Step.SquashMergeBranchStep config.BranchToShip env.commitMessage]
  ++ ((if env.HasRemote "origin" = true then
        [steps.Step.PushBranchStep (env.GetParentBranch config.BranchToShip) true]
      else [])
  ++ ((if env.HasTrackingBranch config.BranchToShip = true
          ∧ env.GetChildBranches config.BranchToShip = [] then
        [steps.Step.DeleteRemoteBranchStep config.BranchToShip true]
      else [])
  ++ ([steps.Step.DeleteLocalBranchStep config.BranchToShip,
      steps.Step.DeleteParentBranchStep config.BranchToShip]
  ++ ((env.GetChildBranches config.BranchToShip).map
      (fun child =>
        steps.Step.SetParentBranchStep child (env.GetParentBranch config.BranchToShip))
  ++ ([steps.Step.DeleteAncestorBranchesStep]
  ++ (if config.InitialBranch ≠ config.BranchToShip then
        [steps.Step.CheckoutBranchStep config.InitialBranch]
      else []))))))

/-! ## Part 3: `vendor/code.gitea.io/sdk/gitea/user_search.go` -/

/-- The Go type `gitea.ListOptions` (declared elsewhere in the package): the
two `int` fields `QueryEncode` reads. -/
structure ListOptions where
  Page : Int
  PageSize : Int
deriving DecidableEq, Repr

/-- The Go type `gitea.SearchUsersOption`. -/
structure SearchUsersOption extends ListOptions where
  KeyWord : String
deriving DecidableEq, Repr

/-- The bytes of the UTF-8 encoding of a character: a Go string is the sequence
of these bytes. -/
def utf8Bytes (c : Char) : List Nat :=
  let n := c.toNat
  if n < 0x80 then [n]
  else if n < 0x800 then [0xC0 + n / 64, 0x80 + n % 64]
  else if n < 0x10000 then [0xE0 + n / 4096, 0x80 + n / 64 % 64, 0x80 + n % 64]
  else [0xF0 + n / 262144, 0x80 + n / 4096 % 64, 0x80 + n / 64 % 64, 0x80 + n % 64]

/-- Go `len(s)` for a string: its number of bytes. -/
def goLen (s : String) : Nat :=
  (s.data.flatMap utf8Bytes).length

/-- Go `net/url` `shouldEscape(c, encodeQueryComponent)`: letters, digits and
`-`, `_`, `.`, `~` are kept, every other byte is escaped. -/
def url.shouldEscape (c : Nat) : Bool :=
  if (97 ≤ c && c ≤ 122) || (65 ≤ c && c ≤ 90) || (48 ≤ c && c ≤ 57) then false
  else if c == 45 || c == 95 || c == 46 || c == 126 then false
  else true

/-- The hexadecimal digit `"0123456789ABCDEF"[d]`. -/
def url.upperhex (d : Nat) : Char :=
  if d < 10 then Char.ofNat (48 + d) else Char.ofNat (55 + d)

/-- What `url.QueryEscape` writes for one byte: `+` for a space, `%XX` for a
byte that has to be escaped, the byte itself otherwise. -/
def url.escapeByte (c : Nat) : List Char :=
  if c == 32 then [Char.ofNat 43]
  else if url.shouldEscape c then [Char.ofNat 37, url.upperhex (c / 16), url.upperhex (c % 16)]
  else [Char.ofNat c]

/-- Go standard library `url.QueryEscape`. -/
def url.QueryEscape (s : String) : String :=
  String.mk (s.data.flatMap fun c => (utf8Bytes c).flatMap url.escapeByte)

/-- Go `fmt.Sprintf("%d", n)` for an `int`: the decimal digits, after a minus
sign when the number is negative. -/
def fmt.Sprintf_d (n : Int) : String :=
  match n with
  | Int.ofNat m => String.mk (Nat.toDigits 10 m)
  | Int.negSucc m => "-" ++ String.mk (Nat.toDigits 10 (m + 1))

/-- Go `url.Values`, a `map[string][]string`: each key occurs once. -/
abbrev url.Values := List (String × List String)

/-- Go `url.Values.Add`: appends the value to the values of the key. -/
def url.Values.Add (v : url.Values) (key value : String) : url.Values :=
  match v with
  | [] => [(key, [value])]
  | (k, vs) :: rest =>
    if k = key then (k, vs ++ [value]) :: rest
    else (k, vs) :: url.Values.Add rest key value

/-- Lexicographic comparison of byte sequences. -/
def bytesLess (a b : List Nat) : Bool :=
  match a, b with
  | [], [] => false
  | [], _ :: _ => true
  | _ :: _, [] => false
  | x :: xs, y :: ys => if x < y then true else if y < x then false else bytesLess xs ys

/-- Go `a < b` for strings: the byte sequences are compared lexicographically. -/
def goStringLess (a b : String) : Bool :=
  bytesLess (a.data.flatMap utf8Bytes) (b.data.flatMap utf8Bytes)

/-- Insertion of a string into a sorted list of strings. -/
def sort.insert (k : String) (ks : List String) : List String :=
  match ks with
  | [] => [k]
  | h :: t => if goStringLess k h then k :: h :: t else h :: sort.insert k t

/-- Go standard library `sort.Strings`: the strings in increasing order. -/
def sort.Strings (ks : List String) : List String :=
  ks.foldr sort.insert []

/-- The values stored under a key (`v[k]`). -/
def url.Values.lookup (v : url.Values) (key : String) : List String :=
  match v with
  | [] => []
  | (k, vs) :: rest => if k = key then vs else url.Values.lookup rest key

/-- Go `url.Values.Encode`: for the keys in sorted order, and for each value of
a key in order, `key=value` with both escaped; the pairs are joined by `&`. -/
def url.Values.Encode (v : url.Values) : String :=
  let keys := sort.Strings (v.map Prod.fst)
  let pairs := keys.flatMap fun k =>
    (url.Values.lookup v k).map fun value => url.QueryEscape k ++ "=" ++ url.QueryEscape value
  "&".intercalate pairs

/-- `func (opt *SearchUsersOption) QueryEncode() string`. -/
def SearchUsersOption.QueryEncode (opt : SearchUsersOption) : String :=
  let query : url.Values := []
  let query := if opt.Page > 0 then query.Add "page" (fmt.Sprintf_d opt.Page) else query
  let query :=
    if opt.PageSize > 0 then query.Add "limit" (fmt.Sprintf_d opt.PageSize) else query
  let query := if goLen opt.KeyWord > 0 then query.Add "q" opt.KeyWord else query
  query.Encode

/-! ## Theorems, part 1: `ChangeDirectoryStep` -/

/-- C1: when `os.Stat` returns an error for the directory of the step, `Run`
returns `nil`, prints no command and leaves the working directory (indeed the
whole process state) as it was. -/
theorem ChangeDirectoryStep_Run_missing_directory (step : ChangeDirectoryStep) (w : World)
    (h : ∃ e, os.Stat w step.Directory = Except.error e) :
    (step.Run w).1 = none ∧ (step.Run w).2.printed = w.printed
      ∧ (step.Run w).2.cwd = w.cwd ∧ (step.Run w).2 = w := by
  obtain ⟨e, he⟩ := h
  simp [ChangeDirectoryStep.Run, he]

/-- Witness of C1: in the sample state `/repo/gone` does not exist, and running
the step for it returns `nil`, prints nothing and stays in `/repo/sub`. -/
theorem ChangeDirectoryStep_Run_missing_directory_witness :
    (ChangeDirectoryStep.Run { Directory := "/repo/gone" } sampleWorld).1 = none
      ∧ (ChangeDirectoryStep.Run { Directory := "/repo/gone" } sampleWorld).2.printed = []
      ∧ (ChangeDirectoryStep.Run { Directory := "/repo/gone" } sampleWorld).2.cwd = "/repo/sub"
      ∧ (ChangeDirectoryStep.Run { Directory := "/repo/gone" } sampleWorld).2 = sampleWorld :=
  ChangeDirectoryStep_Run_missing_directory { Directory := "/repo/gone" } sampleWorld
    ⟨GoError.ENOENT "/repo/gone", rfl⟩

/-- C5: for every directory and every process state, `CreateAbortStep`,
`CreateContinueStep` and `CreateUndoStep` each return `NoOpStep{}` and leave the
process state untouched. -/
theorem ChangeDirectoryStep_companions_are_NoOp (step : ChangeDirectoryStep) (w : World) :
    step.CreateAbortStep w = (Step.NoOp {}, w)
      ∧ step.CreateContinueStep w = (Step.NoOp {}, w)
      ∧ step.CreateUndoStep w = (Step.NoOp {}, w) :=
  ⟨rfl, rfl, rfl⟩

/-- C6, counterexample: `/repo/README.md` exists in the sample state (`os.Stat`
succeeds), yet after `Run` the working directory is still `/repo/sub`, not the
directory of the step, and `Run` returns the error of `os.Chdir`.  For the
relative path `docs`, which exists as well, `Run` succeeds and the working
directory afterwards is `/repo/sub/docs`, not the text `docs`.  For the
directory `/repo/locked`, which the process may not enter, `Run` returns the
error and stays in `/repo/sub`. -/
theorem ChangeDirectoryStep_Run_existing_counterexample :
    (os.Stat sampleWorld "/repo/README.md" = Except.ok FileKind.regularFile
      ∧ (ChangeDirectoryStep.Run { Directory := "/repo/README.md" } sampleWorld).2.cwd
          = "/repo/sub"
      ∧ (ChangeDirectoryStep.Run { Directory := "/repo/README.md" } sampleWorld).2.cwd
          ≠ "/repo/README.md"
      ∧ (ChangeDirectoryStep.Run { Directory := "/repo/README.md" } sampleWorld).1
          = some (GoError.ENOTDIR "/repo/README.md"))
    ∧ (os.Stat sampleWorld "docs" = Except.ok FileKind.directory
      ∧ (ChangeDirectoryStep.Run { Directory := "docs" } sampleWorld).1 = none
      ∧ (ChangeDirectoryStep.Run { Directory := "docs" } sampleWorld).2.cwd
          = "/repo/sub/docs"
      ∧ (ChangeDirectoryStep.Run { Directory := "docs" } sampleWorld).2.cwd ≠ "docs")
    ∧ (os.Stat sampleWorld "/repo/locked" = Except.ok FileKind.directory
      ∧ (ChangeDirectoryStep.Run { Directory := "/repo/locked" } sampleWorld).1
          = some (GoError.EACCES "/repo/locked")
      ∧ (ChangeDirectoryStep.Run { Directory := "/repo/locked" } sampleWorld).2.cwd
          = "/repo/sub") := by
  exact ⟨⟨rfl, by decide, by decide, by decide⟩, ⟨rfl, by decide, by decide, by decide⟩,
    ⟨rfl, by decide, by decide⟩⟩

/-- C6, amended: when `os.Stat` succeeds for the directory of the step, `Run`
prints the command `cd <Directory>` and returns what `os.Chdir` returns; when
that is `nil` the path leads to a directory and the working directory afterwards
is that directory (so it equals the directory of the step when the step gives
the directory by its own absolute path), and when it is an error the working
directory is unchanged. -/
theorem ChangeDirectoryStep_Run_existing (step : ChangeDirectoryStep) (w : World)
    (h : ∃ k, os.Stat w step.Directory = Except.ok k) :
    (step.Run w).2.printed = w.printed ++ [["cd", step.Directory]]
      ∧ step.Run w = os.Chdir (script.PrintCommand w ["cd", step.Directory]) step.Directory
      ∧ ((step.Run w).1 = none →
          ∃ n, w.resolve w.cwd step.Directory = Except.ok n
            ∧ n.kind = FileKind.directory
            ∧ (step.Run w).2.cwd = n.realPath
            ∧ (n.realPath = step.Directory → (step.Run w).2.cwd = step.Directory))
      ∧ ((step.Run w).1 ≠ none → (step.Run w).2.cwd = w.cwd) := by
  obtain ⟨k, hk⟩ := h
  have hrun : step.Run w
      = os.Chdir (script.PrintCommand w ["cd", step.Directory]) step.Directory := by
    simp [ChangeDirectoryStep.Run, hk]
  rw [hrun]
  cases hres : w.resolve w.cwd step.Directory with
  | error e => simp [os.Stat, hres] at hk
  | ok n =>
    rcases n with ⟨kind, cerr, rp⟩
    cases kind <;> cases cerr <;> simp [os.Chdir, script.PrintCommand, hres]

/-- Witness of C6 (amended): `/repo` is a directory of the sample state; running
the step for it prints `cd /repo` and moves the process there. -/
theorem ChangeDirectoryStep_Run_existing_witness :
    (ChangeDirectoryStep.Run { Directory := "/repo" } sampleWorld).2.printed = [["cd", "/repo"]]
      ∧ ∃ n, sampleWorld.resolve sampleWorld.cwd "/repo" = Except.ok n
          ∧ n.kind = FileKind.directory
          ∧ (ChangeDirectoryStep.Run { Directory := "/repo" } sampleWorld).2.cwd = n.realPath
          ∧ (n.realPath = "/repo" →
              (ChangeDirectoryStep.Run { Directory := "/repo" } sampleWorld).2.cwd = "/repo") :=
  have h := ChangeDirectoryStep_Run_existing { Directory := "/repo" } sampleWorld
    ⟨FileKind.directory, rfl⟩
  ⟨h.1, h.2.2.1 (by decide)⟩

/-! ## Theorems, part 2: `ship.go` -/

/-- Appending one step per element of a list, in order, appends the image of
the list. -/
theorem foldl_Append_List (f : String → steps.Step) (cs : List String) (r : steps.StepList) :
    (cs.foldl (fun r child => ({ List := r.List ++ [f child] } : steps.StepList)) r).List
      = r.List ++ cs.map f := by
  induction cs generalizing r with
  | nil => simp
  | cons c cs ih =>
    simp only [List.foldl_cons, ih, List.map_cons, List.append_assoc, List.singleton_append]

/-- The list `getShipStepList` holds before wrapping is the sync steps of the
parent followed by the steps it appends itself. -/
theorem getShipStepListBeforeWrap_List (env : Env) (config : shipConfig) :
    (getShipStepListBeforeWrap env config).List
      = (env.GetSyncBranchSteps (env.GetParentBranch config.BranchToShip)).List
          ++ shipOwnSteps env config := by
  rcases config with ⟨b, i⟩
  unfold getShipStepListBeforeWrap shipOwnSteps
  simp only []
  by_cases h4 : b = i
  · subst h4
    by_cases h1 : env.HasRemote "origin" = true <;>
    by_cases h2 : env.HasTrackingBranch b = true <;>
    by_cases h3 : env.GetChildBranches b = [] <;>
    simp [h1, h2, h3, foldl_Append_List, steps.StepList.Append, steps.StepList.AppendList]
  · have h5 : ¬ i = b := fun h => h4 h.symm
    by_cases h1 : env.HasRemote "origin" = true <;>
    by_cases h2 : env.HasTrackingBranch b = true <;>
    by_cases h3 : env.GetChildBranches b = [] <;>
    simp [h1, h2, h3, h4, h5, foldl_Append_List, steps.StepList.Append,
      steps.StepList.AppendList]

/-- C2: when the remote `origin` is present and the branch to ship has a
tracking branch and no child branches (whatever its parent is, in particular
when it is the main branch), `getShipStepList` returns, wrapped with
`RunInGitRoot = true` and `StashOpenChanges = (initial branch differs from the
branch to ship)`, exactly: the sync steps of the parent, checkout of the branch,
merge of the tracking branch, merge of the parent, the shippable-changes guard,
checkout of the parent, the squash merge with the commit message, the undoable
push of the parent, deletion of the remote tracking branch, of the local branch,
of the parent entry, of the ancestor entries, and a final checkout of the
initial branch exactly when it differs from the branch to ship. -/
theorem getShipStepList_leaf_with_remote (env : Env) (config : shipConfig)
    (hremote : env.HasRemote "origin" = true)
    (htracking : env.HasTrackingBranch config.BranchToShip = true)
    (hchildren : env.GetChildBranches config.BranchToShip = []) :
    getShipStepList env config
      = env.Wrap
          { RunInGitRoot := true
            StashOpenChanges := decide (config.InitialBranch ≠ config.BranchToShip) }
          { List :=
              (env.GetSyncBranchSteps (env.GetParentBranch config.BranchToShip)).List
              ++ [steps.Step.CheckoutBranchStep config.BranchToShip,
                  steps.Step.MergeTrackingBranchStep,
                  steps.Step.MergeBranchStep (env.GetParentBranch config.BranchToShip),
                  steps.Step.EnsureHasShippableChangesStep config.BranchToShip,
                  steps.Step.CheckoutBranchStep (env.GetParentBranch config.BranchToShip),
                  steps.Step.SquashMergeBranchStep config.BranchToShip env.commitMessage,
                  steps.Step.PushBranchStep (env.GetParentBranch config.BranchToShip) true,
                  steps.Step.DeleteRemoteBranchStep config.BranchToShip true,
                  steps.Step.DeleteLocalBranchStep config.BranchToShip,
                  steps.Step.DeleteParentBranchStep config.BranchToShip,
                  steps.Step.DeleteAncestorBranchesStep]
              ++ (if config.InitialBranch ≠ config.BranchToShip then
                    [steps.Step.CheckoutBranchStep config.InitialBranch]
                  else []) } := by
  have hl := getShipStepListBeforeWrap_List env config
  have hopt : (!(config.BranchToShip == config.InitialBranch))
      = decide (config.InitialBranch ≠ config.BranchToShip) := by
    by_cases h : config.BranchToShip = config.InitialBranch
    · simp [h]
    · have h5 : ¬ config.InitialBranch = config.BranchToShip := fun e => h e.symm
      simp [h, h5]
  have hlist : getShipStepListBeforeWrap env config
      = { List := (env.GetSyncBranchSteps (env.GetParentBranch config.BranchToShip)).List
            ++ shipOwnSteps env config } := by
    cases hw : getShipStepListBeforeWrap env config
    rw [hw] at hl
    simp only at hl
    rw [hl]
  unfold getShipStepList
  simp only [hopt, hlist]
  congr 2
  simp [shipOwnSteps, hremote, htracking, hchildren]

/-- Witness of C2: shipping `feature-b` (child of `main`, tracking branch, no
children, remote present) from `main` in the sample state. -/
theorem getShipStepList_leaf_with_remote_witness :
    getShipStepList sampleEnvLeaf { BranchToShip := "feature-b", InitialBranch := "main" }
      = sampleWrap { RunInGitRoot := true, StashOpenChanges := true }
          { List :=
              [steps.Step.CheckoutBranchStep "main",
               steps.Step.Other "RebaseTrackingBranchStep",
               steps.Step.PushBranchStep "main" false,
               steps.Step.CheckoutBranchStep "feature-b",
               steps.Step.MergeTrackingBranchStep,
               steps.Step.MergeBranchStep "main",
               steps.Step.EnsureHasShippableChangesStep "feature-b",
               steps.Step.CheckoutBranchStep "main",
               steps.Step.SquashMergeBranchStep "feature-b" "done",
               steps.Step.PushBranchStep "main" true,
               steps.Step.DeleteRemoteBranchStep "feature-b" true,
               steps.Step.DeleteLocalBranchStep "feature-b",
               steps.Step.DeleteParentBranchStep "feature-b",
               steps.Step.DeleteAncestorBranchesStep,
               steps.Step.CheckoutBranchStep "main"] } :=
  getShipStepList_leaf_with_remote sampleEnvLeaf
    { BranchToShip := "feature-b", InitialBranch := "main" }
    (by decide) (by decide) (by decide)

/-- The steps `getShipStepList` appends itself, one by one. -/
theorem mem_shipOwnSteps (env : Env) (config : shipConfig) (s : steps.Step) :
    s ∈ shipOwnSteps env config ↔
      s = steps.Step.CheckoutBranchStep config.BranchToShip
      ∨ s = steps.Step.MergeTrackingBranchStep
      ∨ s = steps.Step.MergeBranchStep (env.GetParentBranch config.BranchToShip)
      ∨ s = steps.Step.EnsureHasShippableChangesStep config.BranchToShip
      ∨ s = steps.Step.CheckoutBranchStep (env.GetParentBranch config.BranchToShip)
      ∨ s = steps.Step.SquashMergeBranchStep config.BranchToShip env.commitMessage
      ∨ (env.HasRemote "origin" = true
          ∧ s = steps.Step.PushBranchStep (env.GetParentBranch config.BranchToShip) true)
      ∨ ((env.HasTrackingBranch config.BranchToShip = true
            ∧ env.GetChildBranches config.BranchToShip = [])
          ∧ s = steps.Step.DeleteRemoteBranchStep config.BranchToShip true)
      ∨ s = steps.Step.DeleteLocalBranchStep config.BranchToShip
      ∨ s = steps.Step.DeleteParentBranchStep config.BranchToShip
      ∨ (∃ child ∈ env.GetChildBranches config.BranchToShip,
          steps.Step.SetParentBranchStep child (env.GetParentBranch config.BranchToShip) = s)
      ∨ s = steps.Step.DeleteAncestorBranchesStep
      ∨ (config.InitialBranch ≠ config.BranchToShip
          ∧ s = steps.Step.CheckoutBranchStep config.InitialBranch) := by
  have hif : ∀ (p : Prop) [Decidable p] (x : steps.Step),
      s ∈ (if p then [x] else []) ↔ (p ∧ s = x) := by
    intro p _ x
    by_cases hp : p <;> simp [hp]
  unfold shipOwnSteps
  simp only [List.mem_append, List.mem_cons, List.mem_singleton, List.not_mem_nil, or_false,
    hif, List.mem_map, or_assoc]

/-- The shippable-changes guard is appended exactly once by `getShipStepList`. -/
theorem count_guard_shipOwnSteps (env : Env) (config : shipConfig) :
    (shipOwnSteps env config).count
      (steps.Step.EnsureHasShippableChangesStep config.BranchToShip) = 1 := by
  have hrest : ∀ l : List steps.Step,
      (∀ s ∈ l, s ≠ steps.Step.EnsureHasShippableChangesStep config.BranchToShip) →
      l.count (steps.Step.EnsureHasShippableChangesStep config.BranchToShip) = 0 := by
    intro l hl
    rw [List.count_eq_zero]
    intro hmem
    exact hl _ hmem rfl
  have hif : ∀ (p : Prop) [Decidable p] (x : steps.Step),
      x ≠ steps.Step.EnsureHasShippableChangesStep config.BranchToShip →
      (if p then [x] else []).count
        (steps.Step.EnsureHasShippableChangesStep config.BranchToShip) = 0 := by
    intro p _ x hx
    apply hrest
    intro s hs
    by_cases hp : p
    · simp only [hp, if_true, List.mem_singleton] at hs
      rw [hs]
      exact hx
    · simp [hp] at hs
  have hmap : ((env.GetChildBranches config.BranchToShip).map
      (fun child =>
        steps.Step.SetParentBranchStep child (env.GetParentBranch config.BranchToShip))).count
      (steps.Step.EnsureHasShippableChangesStep config.BranchToShip) = 0 := by
    apply hrest
    intro s hs
    rw [List.mem_map] at hs
    obtain ⟨c, _, rfl⟩ := hs
    exact fun h => steps.Step.noConfusion h
  unfold shipOwnSteps
  rw [List.count_append, List.count_append, List.count_append, List.count_append,
    List.count_append, List.count_append, hmap,
    hif _ _ (fun h => steps.Step.noConfusion h), hif _ _ (fun h => steps.Step.noConfusion h),
    hif _ _ (fun h => steps.Step.noConfusion h)]
  simp

/-- C7: for every state and every ship configuration, the list `getShipStepList`
builds (and then hands to `Wrap`) is the sync steps of the parent followed by
the steps it appends itself; among the appended steps the shippable-changes
guard of the branch to ship occurs exactly once, at position 3, and every
destructive step (squash merge, push, deletion of the remote or local branch,
of the parent entry, re-parenting of a child, deletion of ancestor entries)
stands at a later position; the squash merge is always there, at position 5.
In the whole list the guard occurs once more than in the sync steps. -/
theorem getShipStepList_guard_before_destructive (env : Env) (config : shipConfig) :
    ∃ own : List steps.Step,
      getShipStepList env config
        = env.Wrap
            { RunInGitRoot := true
              StashOpenChanges := !(config.BranchToShip == config.InitialBranch) }
            (getShipStepListBeforeWrap env config)
      ∧ (getShipStepListBeforeWrap env config).List
        = (env.GetSyncBranchSteps (env.GetParentBranch config.BranchToShip)).List ++ own
      ∧ own.get? 3 = some (steps.Step.EnsureHasShippableChangesStep config.BranchToShip)
      ∧ own.count (steps.Step.EnsureHasShippableChangesStep config.BranchToShip) = 1
      ∧ (∀ (i : Nat) (s : steps.Step),
          own.get? i = some s → s.isDestructive = true → 3 < i)
      ∧ own.get? 5
        = some (steps.Step.SquashMergeBranchStep config.BranchToShip env.commitMessage)
      ∧ (getShipStepListBeforeWrap env config).List.count
          (steps.Step.EnsureHasShippableChangesStep config.BranchToShip)
        = (env.GetSyncBranchSteps (env.GetParentBranch config.BranchToShip)).List.count
            (steps.Step.EnsureHasShippableChangesStep config.BranchToShip) + 1 := by
  refine ⟨shipOwnSteps env config, rfl, getShipStepListBeforeWrap_List env config, rfl,
    count_guard_shipOwnSteps env config, ?_, rfl, ?_⟩
  · intro i s hs hd
    rcases i with _ | _ | _ | _ | i
    · have h0 : some (steps.Step.CheckoutBranchStep config.BranchToShip) = some s := hs
      rw [← Option.some.inj h0] at hd
      exact Bool.noConfusion hd
    · have h1 : some steps.Step.MergeTrackingBranchStep = some s := hs
      rw [← Option.some.inj h1] at hd
      exact Bool.noConfusion hd
    · have h2 : some (steps.Step.MergeBranchStep (env.GetParentBranch config.BranchToShip))
          = some s := hs
      rw [← Option.some.inj h2] at hd
      exact Bool.noConfusion hd
    · have h3 : some (steps.Step.EnsureHasShippableChangesStep config.BranchToShip)
          = some s := hs
      rw [← Option.some.inj h3] at hd
      exact Bool.noConfusion hd
    · omega
  · rw [getShipStepListBeforeWrap_List, List.count_append, count_guard_shipOwnSteps]

/-- Witness of C7: shipping `feature-b` from `main` in the sample state; the
guard is the fourth appended step and the first destructive appended step, the
squash merge, is the sixth. -/
theorem getShipStepList_guard_before_destructive_witness :
    ∃ own : List steps.Step,
      (getShipStepListBeforeWrap sampleEnv
          { BranchToShip := "feature-b", InitialBranch := "main" }).List
        = [steps.Step.CheckoutBranchStep "main", steps.Step.Other "RebaseTrackingBranchStep",
           steps.Step.PushBranchStep "main" false] ++ own
      ∧ own.get? 3 = some (steps.Step.EnsureHasShippableChangesStep "feature-b")
      ∧ own.get? 5 = some (steps.Step.SquashMergeBranchStep "feature-b" "done")
      ∧ (∀ (i : Nat) (s : steps.Step),
          own.get? i = some s → s.isDestructive = true → 3 < i) :=
  match getShipStepList_guard_before_destructive sampleEnv
    { BranchToShip := "feature-b", InitialBranch := "main" } with
  | ⟨own, _, h2, h3, _, h5, h6, _⟩ => ⟨own, h2, h3, h6, h5⟩

/-- The `SetParentBranchStep`s `getShipStepList` appends are those of the child
branches, in their order. -/
theorem filter_setParent_shipOwnSteps (env : Env) (config : shipConfig) :
    (shipOwnSteps env config).filter steps.Step.isSetParentBranchStep
      = (env.GetChildBranches config.BranchToShip).map
          (fun child =>
            steps.Step.SetParentBranchStep child (env.GetParentBranch config.BranchToShip)) := by
  have hmapfilter :
      ((env.GetChildBranches config.BranchToShip).map (fun child =>
        steps.Step.SetParentBranchStep child (env.GetParentBranch config.BranchToShip))).filter
        steps.Step.isSetParentBranchStep
      = (env.GetChildBranches config.BranchToShip).map (fun child =>
        steps.Step.SetParentBranchStep child (env.GetParentBranch config.BranchToShip)) := by
    rw [List.filter_eq_self]
    intro s hs
    rw [List.mem_map] at hs
    obtain ⟨c, _, rfl⟩ := hs
    rfl
  have hif : ∀ (p : Prop) [Decidable p] (x : steps.Step),
      x.isSetParentBranchStep = false →
      (if p then [x] else []).filter steps.Step.isSetParentBranchStep = [] := by
    intro p _ x hx
    by_cases hp : p <;> simp [hp, hx]
  unfold shipOwnSteps
  rw [List.filter_append, List.filter_append, List.filter_append, List.filter_append,
    List.filter_append, List.filter_append, hmapfilter,
    hif _ (steps.Step.PushBranchStep (env.GetParentBranch config.BranchToShip) true) rfl,
    hif _ (steps.Step.DeleteRemoteBranchStep config.BranchToShip true) rfl,
    hif _ (steps.Step.CheckoutBranchStep config.InitialBranch) rfl]
  simp [steps.Step.isSetParentBranchStep]

/-- The steps `getShipStepList` appends itself: the re-parenting steps of the
child branches stand between the deletion of the parent entry and the deletion
of ancestor entries, and a `DeleteRemoteBranchStep` is among the appended steps
exactly when the branch has a tracking branch and no children. -/
theorem shipOwnSteps_children_and_remote (env : Env) (config : shipConfig) :
    ∃ own before after : List steps.Step,
      (getShipStepListBeforeWrap env config).List
        = (env.GetSyncBranchSteps (env.GetParentBranch config.BranchToShip)).List ++ own
      ∧ own = before ++ [steps.Step.DeleteParentBranchStep config.BranchToShip]
          ++ (env.GetChildBranches config.BranchToShip).map
              (fun child =>
                steps.Step.SetParentBranchStep child
                  (env.GetParentBranch config.BranchToShip))
          ++ [steps.Step.DeleteAncestorBranchesStep] ++ after
      ∧ (∀ s ∈ before, s.isSetParentBranchStep = false)
      ∧ (∀ s ∈ after, s.isSetParentBranchStep = false)
      ∧ own.filter steps.Step.isSetParentBranchStep
        = (env.GetChildBranches config.BranchToShip).map
            (fun child =>
              steps.Step.SetParentBranchStep child (env.GetParentBranch config.BranchToShip))
      ∧ (own.filter steps.Step.isSetParentBranchStep).length
        = (env.GetChildBranches config.BranchToShip).length
      ∧ (getShipStepListBeforeWrap env config).List.filter steps.Step.isSetParentBranchStep
        = (env.GetSyncBranchSteps (env.GetParentBranch config.BranchToShip)).List.filter
            steps.Step.isSetParentBranchStep
          ++ (env.GetChildBranches config.BranchToShip).map
            (fun child =>
              steps.Step.SetParentBranchStep child (env.GetParentBranch config.BranchToShip))
      ∧ ((∃ s ∈ own, s.isDeleteRemoteBranchStep = true)
          ↔ (env.HasTrackingBranch config.BranchToShip = true
              ∧ (env.GetChildBranches config.BranchToShip).length = 0))
      ∧ (∀ s ∈ own, s.isDeleteRemoteBranchStep = true →
          s = steps.Step.DeleteRemoteBranchStep config.BranchToShip true) := by
  have hremote : ∀ s ∈ shipOwnSteps env config, s.isDeleteRemoteBranchStep = true →
      (env.HasTrackingBranch config.BranchToShip = true
        ∧ env.GetChildBranches config.BranchToShip = [])
      ∧ s = steps.Step.DeleteRemoteBranchStep config.BranchToShip true := by
    intro s hs hd
    rw [mem_shipOwnSteps] at hs
    rcases hs with h | h | h | h | h | h | h | h | h | h | h | h | h
    · rw [h] at hd; exact Bool.noConfusion hd
    · rw [h] at hd; exact Bool.noConfusion hd
    · rw [h] at hd; exact Bool.noConfusion hd
    · rw [h] at hd; exact Bool.noConfusion hd
    · rw [h] at hd; exact Bool.noConfusion hd
    · rw [h] at hd; exact Bool.noConfusion hd
    · rw [h.2] at hd; exact Bool.noConfusion hd
    · exact h
    · rw [h] at hd; exact Bool.noConfusion hd
    · rw [h] at hd; exact Bool.noConfusion hd
    · obtain ⟨c, _, hc⟩ := h
      rw [← hc] at hd; exact Bool.noConfusion hd
    · rw [h] at hd; exact Bool.noConfusion hd
    · rw [h.2] at hd; exact Bool.noConfusion hd
  refine ⟨shipOwnSteps env config,
    [steps.Step.CheckoutBranchStep config.BranchToShip,
     steps.Step.MergeTrackingBranchStep,
     steps.Step.MergeBranchStep (env.GetParentBranch config.BranchToShip),
     steps.Step.EnsureHasShippableChangesStep config.BranchToShip,
     steps.Step.CheckoutBranchStep (env.GetParentBranch config.BranchToShip),
     steps.Step.SquashMergeBranchStep config.BranchToShip env.commitMessage]
    ++ ((if env.HasRemote "origin" = true then
          [steps.Step.PushBranchStep (env.GetParentBranch config.BranchToShip) true]
        else [])
    ++ ((if env.HasTrackingBranch config.BranchToShip = true
            ∧ env.GetChildBranches config.BranchToShip = [] then
          [steps.Step.DeleteRemoteBranchStep config.BranchToShip true]
        else [])
    ++ [steps.Step.DeleteLocalBranchStep config.BranchToShip])),
    (if config.InitialBranch ≠ config.BranchToShip then
        [steps.Step.CheckoutBranchStep config.InitialBranch]
      else []),
    getShipStepListBeforeWrap_List env config, ?_, ?_, ?_,
    filter_setParent_shipOwnSteps env config, ?_, ?_, ?_, ?_⟩
  · unfold shipOwnSteps
    simp only [List.append_assoc, List.cons_append, List.nil_append]
  · intro s hs
    have hmem : s ∈ shipOwnSteps env config := by
      rw [mem_shipOwnSteps]
      simp only [List.mem_append, List.mem_cons, List.mem_singleton, List.not_mem_nil,
        or_false] at hs
      rcases hs with hs | hs | hs
      · tauto
      · split_ifs at hs with h1
        · simp only [List.mem_singleton] at hs
          tauto
        · simp at hs
      · rcases hs with hs | hs
        · split_ifs at hs with h2
          · simp only [List.mem_singleton] at hs
            tauto
          · simp at hs
        · tauto
    simp only [List.mem_append, List.mem_cons, List.mem_singleton, List.not_mem_nil,
      or_false] at hs
    rcases hs with hs | hs | hs
    · rcases hs with rfl | rfl | rfl | rfl | rfl | rfl <;> rfl
    · split_ifs at hs with h1
      · simp only [List.mem_singleton] at hs
        rw [hs]; rfl
      · simp at hs
    · rcases hs with hs | hs
      · split_ifs at hs with h2
        · simp only [List.mem_singleton] at hs
          rw [hs]; rfl
        · simp at hs
      · rw [hs]; rfl
  · intro s hs
    split_ifs at hs with h1
    · simp only [List.mem_singleton] at hs
      rw [hs]; rfl
    · simp at hs
  · rw [filter_setParent_shipOwnSteps, List.length_map]
  · rw [getShipStepListBeforeWrap_List, List.filter_append, filter_setParent_shipOwnSteps]
  · constructor
    · rintro ⟨s, hs, hd⟩
      obtain ⟨⟨ht, hc⟩, _⟩ := hremote s hs hd
      exact ⟨ht, by rw [hc]; rfl⟩
    · rintro ⟨ht, hc⟩
      refine ⟨steps.Step.DeleteRemoteBranchStep config.BranchToShip true, ?_, rfl⟩
      rw [mem_shipOwnSteps]
      have hnil : env.GetChildBranches config.BranchToShip = [] :=
        List.length_eq_zero.mp hc
      tauto
  · intro s hs hd
    exact (hremote s hs hd).2

/-- C8: for every state and every ship configuration with child branches
`c1..cn` of the branch to ship, `getShipStepList` returns `Wrap` of the sync
steps of the parent followed by the steps it appends itself, and those contain,
immediately after the deletion of the parent entry of the shipped branch and
immediately before the deletion of ancestor entries, the steps
`SetParentBranchStep{ci, parent of the shipped branch}` in the order of
`GetChildBranches`, and no other `SetParentBranchStep`; a
`DeleteRemoteBranchStep` is among them (then for the shipped branch, as tracking
branch) exactly when the branch has a tracking branch and `n = 0`.  In the list
handed to `Wrap` the `SetParentBranchStep`s are those of the sync steps followed
by these, and a `DeleteRemoteBranchStep` occurs exactly when one occurs in the
sync steps or the branch has a tracking branch and `n = 0`.  When `Wrap` puts
steps before and after the list and neither these nor the sync steps hold a
`SetParentBranchStep` or a `DeleteRemoteBranchStep`, the list `getShipStepList`
returns contains exactly the `n` re-parenting steps, placed as said, and a
`DeleteRemoteBranchStep` (the one for the shipped branch) if and only if the
branch has a tracking branch and `n = 0`. -/
theorem getShipStepList_children_and_remote (env : Env) (config : shipConfig) :
    ∃ own before after : List steps.Step,
      getShipStepList env config
        = env.Wrap
            { RunInGitRoot := true
              StashOpenChanges := !(config.BranchToShip == config.InitialBranch) }
            (getShipStepListBeforeWrap env config)
      ∧ (getShipStepListBeforeWrap env config).List
        = (env.GetSyncBranchSteps (env.GetParentBranch config.BranchToShip)).List ++ own
      ∧ own = before ++ [steps.Step.DeleteParentBranchStep config.BranchToShip]
          ++ (env.GetChildBranches config.BranchToShip).map
              (fun child =>
                steps.Step.SetParentBranchStep child
                  (env.GetParentBranch config.BranchToShip))
          ++ [steps.Step.DeleteAncestorBranchesStep] ++ after
      ∧ (∀ s ∈ before, s.isSetParentBranchStep = false)
      ∧ (∀ s ∈ after, s.isSetParentBranchStep = false)
      ∧ own.filter steps.Step.isSetParentBranchStep
        = (env.GetChildBranches config.BranchToShip).map
            (fun child =>
              steps.Step.SetParentBranchStep child (env.GetParentBranch config.BranchToShip))
      ∧ (own.filter steps.Step.isSetParentBranchStep).length
        = (env.GetChildBranches config.BranchToShip).length
      ∧ (getShipStepListBeforeWrap env config).List.filter steps.Step.isSetParentBranchStep
        = (env.GetSyncBranchSteps (env.GetParentBranch config.BranchToShip)).List.filter
            steps.Step.isSetParentBranchStep
          ++ (env.GetChildBranches config.BranchToShip).map
            (fun child =>
              steps.Step.SetParentBranchStep child (env.GetParentBranch config.BranchToShip))
      ∧ ((∃ s ∈ own, s.isDeleteRemoteBranchStep = true)
          ↔ (env.HasTrackingBranch config.BranchToShip = true
              ∧ (env.GetChildBranches config.BranchToShip).length = 0))
      ∧ (∀ s ∈ own, s.isDeleteRemoteBranchStep = true →
          s = steps.Step.DeleteRemoteBranchStep config.BranchToShip true)
      ∧ ((∃ s ∈ (getShipStepListBeforeWrap env config).List,
            s.isDeleteRemoteBranchStep = true)
          ↔ ((∃ s ∈ (env.GetSyncBranchSteps (env.GetParentBranch config.BranchToShip)).List,
                s.isDeleteRemoteBranchStep = true)
              ∨ (env.HasTrackingBranch config.BranchToShip = true
                  ∧ (env.GetChildBranches config.BranchToShip).length = 0)))
      ∧ (∀ front back : List steps.Step,
          (env.Wrap
              { RunInGitRoot := true
                StashOpenChanges := !(config.BranchToShip == config.InitialBranch) }
              (getShipStepListBeforeWrap env config)).List
            = front ++ (getShipStepListBeforeWrap env config).List ++ back →
          (∀ s ∈ front
                ++ (env.GetSyncBranchSteps (env.GetParentBranch config.BranchToShip)).List
                ++ back,
              s.isSetParentBranchStep = false ∧ s.isDeleteRemoteBranchStep = false) →
          (getShipStepList env config).List
              = front
                ++ (env.GetSyncBranchSteps (env.GetParentBranch config.BranchToShip)).List
                ++ before ++ [steps.Step.DeleteParentBranchStep config.BranchToShip]
                ++ (env.GetChildBranches config.BranchToShip).map
                    (fun child =>
                      steps.Step.SetParentBranchStep child
                        (env.GetParentBranch config.BranchToShip))
                ++ [steps.Step.DeleteAncestorBranchesStep] ++ after ++ back
            ∧ (getShipStepList env config).List.filter steps.Step.isSetParentBranchStep
              = (env.GetChildBranches config.BranchToShip).map
                  (fun child =>
                    steps.Step.SetParentBranchStep child
                      (env.GetParentBranch config.BranchToShip))
            ∧ ((getShipStepList env config).List.filter
                  steps.Step.isSetParentBranchStep).length
              = (env.GetChildBranches config.BranchToShip).length
            ∧ ((∃ s ∈ (getShipStepList env config).List, s.isDeleteRemoteBranchStep = true)
              ↔ (env.HasTrackingBranch config.BranchToShip = true
                  ∧ (env.GetChildBranches config.BranchToShip).length = 0))
            ∧ (∀ s ∈ (getShipStepList env config).List, s.isDeleteRemoteBranchStep = true →
                s = steps.Step.DeleteRemoteBranchStep config.BranchToShip true)) := by
  obtain ⟨own, before, after, hL, hown, hbefore, hafter, hfilter, hlen, hLfilter, hiff, hall⟩ :=
    shipOwnSteps_children_and_remote env config
  refine ⟨own, before, after, rfl, hL, hown, hbefore, hafter, hfilter, hlen, hLfilter, hiff,
    hall, ?_, ?_⟩
  · rw [hL]
    constructor
    · rintro ⟨s, hs, hd⟩
      rcases List.mem_append.mp hs with hs | hs
      · exact Or.inl ⟨s, hs, hd⟩
      · exact Or.inr (hiff.mp ⟨s, hs, hd⟩)
    · rintro (⟨s, hs, hd⟩ | h)
      · exact ⟨s, List.mem_append_left _ hs, hd⟩
      · obtain ⟨s, hs, hd⟩ := hiff.mpr h
        exact ⟨s, List.mem_append_right _ hs, hd⟩
  · intro front back hwrap hclean
    have hG : (getShipStepList env config).List
        = front
          ++ ((env.GetSyncBranchSteps (env.GetParentBranch config.BranchToShip)).List ++ own)
          ++ back := by
      rw [← hL]
      exact hwrap
    have hfront : ∀ s ∈ front,
        s.isSetParentBranchStep = false ∧ s.isDeleteRemoteBranchStep = false :=
      fun s hs => hclean s (List.mem_append_left _ (List.mem_append_left _ hs))
    have hsync : ∀ s ∈ (env.GetSyncBranchSteps (env.GetParentBranch config.BranchToShip)).List,
        s.isSetParentBranchStep = false ∧ s.isDeleteRemoteBranchStep = false :=
      fun s hs => hclean s (List.mem_append_left _ (List.mem_append_right _ hs))
    have hback : ∀ s ∈ back,
        s.isSetParentBranchStep = false ∧ s.isDeleteRemoteBranchStep = false :=
      fun s hs => hclean s (List.mem_append_right _ hs)
    have hnil : ∀ l : List steps.Step,
        (∀ s ∈ l, s.isSetParentBranchStep = false ∧ s.isDeleteRemoteBranchStep = false) →
        l.filter steps.Step.isSetParentBranchStep = [] := by
      intro l hl
      rw [List.filter_eq_nil_iff]
      intro s hs
      rw [(hl s hs).1]
      exact Bool.false_ne_true
    have hGfilter : (getShipStepList env config).List.filter steps.Step.isSetParentBranchStep
        = (env.GetChildBranches config.BranchToShip).map
            (fun child =>
              steps.Step.SetParentBranchStep child
                (env.GetParentBranch config.BranchToShip)) := by
      rw [hG, List.filter_append, List.filter_append, List.filter_append, hnil _ hfront,
        hnil _ hsync, hnil _ hback, hfilter]
      simp
    have hGremote : ∀ s ∈ (getShipStepList env config).List,
        s.isDeleteRemoteBranchStep = true → s ∈ own := by
      intro s hs hd
      rw [hG] at hs
      rcases List.mem_append.mp hs with hs | hs
      · rcases List.mem_append.mp hs with hs | hs
        · rw [(hfront s hs).2] at hd
          exact Bool.noConfusion hd
        · rcases List.mem_append.mp hs with hs | hs
          · rw [(hsync s hs).2] at hd
            exact Bool.noConfusion hd
          · exact hs
      · rw [(hback s hs).2] at hd
        exact Bool.noConfusion hd
    refine ⟨?_, hGfilter, ?_, ?_, ?_⟩
    · rw [hG, hown]
      simp only [List.append_assoc]
    · rw [hGfilter, List.length_map]
    · constructor
      · rintro ⟨s, hs, hd⟩
        exact hiff.mp ⟨s, hGremote s hs hd, hd⟩
      · intro h
        obtain ⟨s, hs, hd⟩ := hiff.mpr h
        refine ⟨s, ?_, hd⟩
        rw [hG]
        exact List.mem_append_left _ (List.mem_append_right _ (List.mem_append_right _ hs))
    · intro s hs hd
      exact hall s (hGremote s hs hd) hd

/-- Witness of C8: shipping `feature-a` in the sample state, whose children are
`feature-c` and `feature-d`: the list `getShipStepList` returns holds two
re-parenting steps and, although `feature-a` has a tracking branch, no deletion
of the remote branch. -/
theorem getShipStepList_children_and_remote_witness :
    (getShipStepList sampleEnv
        { BranchToShip := "feature-a", InitialBranch := "feature-a" }).List.filter
        steps.Step.isSetParentBranchStep
      = [steps.Step.SetParentBranchStep "feature-c" "feature-b",
         steps.Step.SetParentBranchStep "feature-d" "feature-b"]
    ∧ ¬ (∃ s ∈ (getShipStepList sampleEnv
          { BranchToShip := "feature-a", InitialBranch := "feature-a" }).List,
        s.isDeleteRemoteBranchStep = true) :=
  match getShipStepList_children_and_remote sampleEnv
    { BranchToShip := "feature-a", InitialBranch := "feature-a" } with
  | ⟨_, _, _, _, _, _, _, _, _, _, _, _, _, _, hfinal⟩ =>
    have h := hfinal [steps.Step.Other "ChangeDirectoryStep"]
      [steps.Step.Other "ChangeDirectoryStep"] rfl (by decide)
    ⟨h.2.1, fun hex => absurd (h.2.2.2.1.mp hex).2 (by decide)⟩

/-- What `ensureParentBranchIsMainOrPerennialBranch` does when the parent is
neither the main branch nor a perennial branch, by the length of the ancestor
list. -/
theorem ensureParent_of_not_root (env : Env) (branchName : String)
    (hmain : env.IsMainBranch (env.GetParentBranch branchName) = false)
    (hper : env.IsPerennialBranch (env.GetParentBranch branchName) = false) :
    ensureParentBranchIsMainOrPerennialBranch env branchName
      = match env.GetAncestorBranches branchName with
        | [] => Outcome.panicked "slice bounds out of range"
        | [_] => Outcome.panicked "index out of range"
        | _ :: oldest :: rest =>
          Outcome.exited
            ["Shipping this branch would ship " ++ strings.Join (oldest :: rest) ", "
                ++ " as well.",
             "Please ship \"" ++ oldest ++ "\" first."] := by
  unfold ensureParentBranchIsMainOrPerennialBranch
  simp only [hmain, hper, Bool.not_false, Bool.and_self, if_true]
  rcases h : env.GetAncestorBranches branchName with _ | ⟨a, _ | ⟨b, rest⟩⟩ <;>
    simp [goSliceFrom, goIndex, util.ExitWithErrorMessage]

/-- When the parent is the main branch or a perennial branch the function
returns. -/
theorem ensureParent_of_root (env : Env) (branchName : String)
    (h : env.IsMainBranch (env.GetParentBranch branchName) = true
      ∨ env.IsPerennialBranch (env.GetParentBranch branchName) = true) :
    ensureParentBranchIsMainOrPerennialBranch env branchName = Outcome.returned () := by
  unfold ensureParentBranchIsMainOrPerennialBranch
  rcases h with h | h <;> simp [h]

/-- C3, counterexample: with the ancestors of `feature-a` listed nearest first,
`[feature-b, main]`, the branch the message asks to ship first is `main`, not
`feature-b`. -/
theorem ship_nested_nearest_first_counterexample :
    sampleEnvNearestFirst.GetParentBranch "feature-a" = "feature-b"
      ∧ sampleEnvNearestFirst.IsMainBranch "feature-b" = false
      ∧ sampleEnvNearestFirst.IsPerennialBranch "feature-b" = false
      ∧ sampleEnvNearestFirst.GetParentBranch "feature-b" = "main"
      ∧ sampleEnvNearestFirst.IsMainBranch "main" = true
      ∧ sampleEnvNearestFirst.GetAncestorBranches "feature-a" = ["feature-b", "main"]
      ∧ ensureParentBranchIsMainOrPerennialBranch sampleEnvNearestFirst "feature-a"
          = Outcome.exited
              ["Shipping this branch would ship main as well.",
               "Please ship \"main\" first."]
      ∧ ensureParentBranchIsMainOrPerennialBranch sampleEnvNearestFirst "feature-a"
          ≠ Outcome.exited
              ["Shipping this branch would ship feature-b as well.",
               "Please ship \"feature-b\" first."] := by
  refine ⟨by decide, by decide, by decide, by decide, by decide, by decide, by decide,
    by decide⟩

/-- C3, amended: when the parent of the branch is neither the main branch nor a
perennial branch and `git.GetAncestorBranches` returns the chain starting at
its root (`root`, then `oldest`, the direct child of the root, then the rest
down to the parent), the function exits with the two-line precondition error
whose second line is `Please ship "oldest" first.`; and when
`checkShipPreconditions` reaches the call in such a state the step list
generator exits with that error, so no step list is built. -/
theorem ship_nested_names_child_of_root (env : Env) (branchName root oldest : String)
    (rest : List String)
    (hmain : env.IsMainBranch (env.GetParentBranch branchName) = false)
    (hper : env.IsPerennialBranch (env.GetParentBranch branchName) = false)
    (hanc : env.GetAncestorBranches branchName = root :: oldest :: rest) :
    ensureParentBranchIsMainOrPerennialBranch env branchName
        = Outcome.exited
            ["Shipping this branch would ship " ++ strings.Join (oldest :: rest) ", "
                ++ " as well.",
             "Please ship \"" ++ oldest ++ "\" first."]
      ∧ ∀ (c : Collaborators) (env0 : Env) (args : List String) (config : shipConfig),
          checkShipPreconditionsUpToLine86 c env0 args = Outcome.returned (config, env) →
          config.BranchToShip = branchName →
          shipStepListGenerator c env0 args
            = Outcome.exited
                ["Shipping this branch would ship " ++ strings.Join (oldest :: rest) ", "
                    ++ " as well.",
                 "Please ship \"" ++ oldest ++ "\" first."] := by
  have h := ensureParent_of_not_root env branchName hmain hper
  rw [hanc] at h
  simp only at h
  refine ⟨h, ?_⟩
  intro c env0 args config hpre hb
  unfold shipStepListGenerator checkShipPreconditions
  rw [hpre]
  simp only [Outcome.bind, hb, h]

/-- Witness of C3 (amended): in the sample state the ancestors of `feature-a`
are `[main, feature-b]`; shipping `feature-a` asks to ship `feature-b` first
and the generator builds no step list. -/
theorem ship_nested_names_child_of_root_witness :
    ensureParentBranchIsMainOrPerennialBranch sampleEnv "feature-a"
        = Outcome.exited
            ["Shipping this branch would ship feature-b as well.",
             "Please ship \"feature-b\" first."]
      ∧ shipStepListGenerator sampleCollaborators sampleEnv ["feature-a"]
        = Outcome.exited
            ["Shipping this branch would ship feature-b as well.",
             "Please ship \"feature-b\" first."] :=
  have h := ship_nested_names_child_of_root sampleEnv "feature-a" "main" "feature-b" []
    (by decide) (by decide) (by decide)
  ⟨h.1, h.2 sampleCollaborators sampleEnv ["feature-a"]
    { BranchToShip := "feature-a", InitialBranch := "feature-b" } rfl rfl⟩

/-- C4: the function returns if and only if the parent of the branch is the
main branch or a perennial branch.  In every other case it does not return, so
that nothing that follows the call runs (`checkShipPreconditions` does not
return and the generator builds no step list); and, the ancestor list being
consistent with the parent entry (it holds a main or perennial root and the
parent), it terminates with the error message: the line that lists the
ancestors after the first and the line that asks to ship the second entry
first. -/
theorem ensureParent_returns_iff_parent_is_root (env : Env) (branchName : String) :
    (ensureParentBranchIsMainOrPerennialBranch env branchName = Outcome.returned ()
        ↔ (env.IsMainBranch (env.GetParentBranch branchName) = true
            ∨ env.IsPerennialBranch (env.GetParentBranch branchName) = true))
      ∧ (¬ (env.IsMainBranch (env.GetParentBranch branchName) = true
            ∨ env.IsPerennialBranch (env.GetParentBranch branchName) = true) →
          (ensureParentBranchIsMainOrPerennialBranch env branchName).isReturned = false
          ∧ ((∃ root ∈ env.GetAncestorBranches branchName,
                env.IsMainBranch root = true ∨ env.IsPerennialBranch root = true) →
              env.GetParentBranch branchName ∈ env.GetAncestorBranches branchName →
              ∃ (first oldestAncestor : String) (rest : List String),
                env.GetAncestorBranches branchName = first :: oldestAncestor :: rest
                ∧ ensureParentBranchIsMainOrPerennialBranch env branchName
                  = Outcome.exited
                      ["Shipping this branch would ship "
                          ++ strings.Join (oldestAncestor :: rest) ", " ++ " as well.",
                       "Please ship \"" ++ oldestAncestor ++ "\" first."]))
      ∧ (∀ (c : Collaborators) (env0 : Env) (args : List String) (config : shipConfig),
          checkShipPreconditionsUpToLine86 c env0 args = Outcome.returned (config, env) →
          config.BranchToShip = branchName →
          ((checkShipPreconditions c env0 args).isReturned = true
            ↔ (env.IsMainBranch (env.GetParentBranch branchName) = true
                ∨ env.IsPerennialBranch (env.GetParentBranch branchName) = true))
          ∧ ((shipStepListGenerator c env0 args).isReturned = true
            ↔ (env.IsMainBranch (env.GetParentBranch branchName) = true
                ∨ env.IsPerennialBranch (env.GetParentBranch branchName) = true))) := by
  have hnot : ¬ (env.IsMainBranch (env.GetParentBranch branchName) = true
        ∨ env.IsPerennialBranch (env.GetParentBranch branchName) = true) →
      (ensureParentBranchIsMainOrPerennialBranch env branchName).isReturned = false
      ∧ ((∃ root ∈ env.GetAncestorBranches branchName,
            env.IsMainBranch root = true ∨ env.IsPerennialBranch root = true) →
          env.GetParentBranch branchName ∈ env.GetAncestorBranches branchName →
          ∃ (first oldestAncestor : String) (rest : List String),
            env.GetAncestorBranches branchName = first :: oldestAncestor :: rest
            ∧ ensureParentBranchIsMainOrPerennialBranch env branchName
              = Outcome.exited
                  ["Shipping this branch would ship "
                      ++ strings.Join (oldestAncestor :: rest) ", " ++ " as well.",
                   "Please ship \"" ++ oldestAncestor ++ "\" first."]) := by
    intro hn
    have hmain : env.IsMainBranch (env.GetParentBranch branchName) = false := by
      cases hm : env.IsMainBranch (env.GetParentBranch branchName)
      · rfl
      · exact absurd (Or.inl hm) hn
    have hper : env.IsPerennialBranch (env.GetParentBranch branchName) = false := by
      cases hm : env.IsPerennialBranch (env.GetParentBranch branchName)
      · rfl
      · exact absurd (Or.inr hm) hn
    rw [ensureParent_of_not_root env branchName hmain hper]
    rcases env.GetAncestorBranches branchName with _ | ⟨a, _ | ⟨b, rest⟩⟩
    · refine ⟨rfl, ?_⟩
      rintro ⟨root, hroot, _⟩ _
      exact absurd hroot (List.not_mem_nil root)
    · refine ⟨rfl, ?_⟩
      rintro ⟨root, hroot, hr⟩ hp
      simp only [List.mem_singleton] at hroot hp
      rw [hroot, ← hp, hmain, hper] at hr
      simp at hr
    · exact ⟨rfl, fun _ _ => ⟨a, b, rest, rfl, rfl⟩⟩
  have hiff : ensureParentBranchIsMainOrPerennialBranch env branchName = Outcome.returned ()
      ↔ (env.IsMainBranch (env.GetParentBranch branchName) = true
          ∨ env.IsPerennialBranch (env.GetParentBranch branchName) = true) := by
    constructor
    · intro hret
      by_contra hn
      have hfalse := (hnot hn).1
      rw [hret] at hfalse
      exact Bool.noConfusion hfalse
    · exact ensureParent_of_root env branchName
  refine ⟨hiff, hnot, ?_⟩
  intro c env0 args config hpre hb
  unfold shipStepListGenerator checkShipPreconditions
  rw [hpre]
  simp only [Outcome.bind, hb]
  by_cases hroot : env.IsMainBranch (env.GetParentBranch branchName) = true
      ∨ env.IsPerennialBranch (env.GetParentBranch branchName) = true
  · rw [hiff.mpr hroot]
    simp [Outcome.isReturned, hroot]
  · have hfalse := (hnot hroot).1
    cases hres : ensureParentBranchIsMainOrPerennialBranch env branchName with
    | returned u =>
      rw [hres] at hfalse
      exact Bool.noConfusion hfalse
    | exited ls => simp [Outcome.isReturned, hroot]
    | panicked m => simp [Outcome.isReturned, hroot]

/-- Witness of C4: in the sample state the parent of `feature-b` is the main
branch, and the function returns; the parent of `feature-a` is `feature-b`, its
ancestor list holds `main` and `feature-b`, and the function exits with the
error message. -/
theorem ensureParent_returns_iff_parent_is_root_witness :
    ensureParentBranchIsMainOrPerennialBranch sampleEnv "feature-b" = Outcome.returned ()
      ∧ (ensureParentBranchIsMainOrPerennialBranch sampleEnv "feature-a").isReturned = false
      ∧ ∃ (first oldestAncestor : String) (rest : List String),
          sampleEnv.GetAncestorBranches "feature-a" = first :: oldestAncestor :: rest
          ∧ ensureParentBranchIsMainOrPerennialBranch sampleEnv "feature-a"
            = Outcome.exited
                ["Shipping this branch would ship "
                    ++ strings.Join (oldestAncestor :: rest) ", " ++ " as well.",
                 "Please ship \"" ++ oldestAncestor ++ "\" first."] :=
  ⟨(ensureParent_returns_iff_parent_is_root sampleEnv "feature-b").1.mpr (Or.inl (by decide)),
   ((ensureParent_returns_iff_parent_is_root sampleEnv "feature-a").2.1 (by decide)).1,
   ((ensureParent_returns_iff_parent_is_root sampleEnv "feature-a").2.1 (by decide)).2
      ⟨"main", by decide, Or.inl (by decide)⟩ (by decide)⟩

/-- C9: when the parent is neither the main branch nor a perennial branch, the
slice expression `ancestors[1:]` and the index expression
`ancestorsWithoutMainOrPerennial[0]` are both in bounds if and only if
`git.GetAncestorBranches` returns at least two branches; the function then
exits with the error message, and panics otherwise (on the slice expression for
an empty list, on the index expression for a list of one branch).  A list that
holds a main or perennial root and the parent has at least two entries. -/
theorem ensureParent_accesses_in_bounds_iff (env : Env) (branchName : String)
    (hmain : env.IsMainBranch (env.GetParentBranch branchName) = false)
    (hper : env.IsPerennialBranch (env.GetParentBranch branchName) = false) :
    ((∃ ancestorsWithoutMainOrPerennial oldestAncestor,
          goSliceFrom (env.GetAncestorBranches branchName) 1
            = some ancestorsWithoutMainOrPerennial
          ∧ goIndex ancestorsWithoutMainOrPerennial 0 = some oldestAncestor)
        ↔ 2 ≤ (env.GetAncestorBranches branchName).length)
      ∧ ((∃ lines, ensureParentBranchIsMainOrPerennialBranch env branchName
            = Outcome.exited lines)
        ↔ 2 ≤ (env.GetAncestorBranches branchName).length)
      ∧ ((∃ msg, ensureParentBranchIsMainOrPerennialBranch env branchName
            = Outcome.panicked msg)
        ↔ (env.GetAncestorBranches branchName).length < 2)
      ∧ ((env.GetAncestorBranches branchName).length = 0 →
          ensureParentBranchIsMainOrPerennialBranch env branchName
            = Outcome.panicked "slice bounds out of range")
      ∧ ((env.GetAncestorBranches branchName).length = 1 →
          ensureParentBranchIsMainOrPerennialBranch env branchName
            = Outcome.panicked "index out of range")
      ∧ ((∃ root ∈ env.GetAncestorBranches branchName,
            env.IsMainBranch root = true ∨ env.IsPerennialBranch root = true) →
          env.GetParentBranch branchName ∈ env.GetAncestorBranches branchName →
          2 ≤ (env.GetAncestorBranches branchName).length) := by
  have h := ensureParent_of_not_root env branchName hmain hper
  rcases hanc : env.GetAncestorBranches branchName with _ | ⟨a, _ | ⟨b, rest⟩⟩
  · rw [hanc] at h
    simp only at h
    simp [h, goSliceFrom, goIndex]
  · rw [hanc] at h
    simp only at h
    simp only [h]
    refine ⟨by simp [goSliceFrom, goIndex], by simp, by simp, by simp, by simp, ?_⟩
    rintro ⟨root, hroot, hr⟩ hp
    simp only [List.mem_singleton] at hroot hp
    rw [hroot, ← hp, hmain, hper] at hr
    simp at hr
  · rw [hanc] at h
    simp only at h
    simp [h, goSliceFrom, goIndex]

/-- Witness of C9: in the sample state the ancestors of `feature-a` are two
branches, and the function exits with the error message. -/
theorem ensureParent_accesses_in_bounds_iff_witness :
    ∃ lines, ensureParentBranchIsMainOrPerennialBranch sampleEnv "feature-a"
      = Outcome.exited lines :=
  (ensureParent_accesses_in_bounds_iff sampleEnv "feature-a" (by decide) (by decide)).2.1.mpr
    (by decide)

/-! ## Theorems, part 3: `SearchUsersOption.QueryEncode` -/

/-- A decimal digit is written unchanged by `url.QueryEscape`. -/
theorem escape_digitChar (d : Nat) (hd : d < 10) :
    (utf8Bytes (Nat.digitChar d)).flatMap url.escapeByte = [Nat.digitChar d] := by
  interval_cases d <;> decide

/-- Every character `Nat.toDigitsCore` produces in base ten is written unchanged
by `url.QueryEscape`. -/
theorem escape_toDigitsCore (fuel n : Nat) (ds : List Char)
    (hds : ∀ c ∈ ds, (utf8Bytes c).flatMap url.escapeByte = [c]) :
    ∀ c ∈ Nat.toDigitsCore 10 fuel n ds, (utf8Bytes c).flatMap url.escapeByte = [c] := by
  induction fuel generalizing n ds with
  | zero => simpa [Nat.toDigitsCore] using hds
  | succ fuel ih =>
    have hcons : ∀ c ∈ Nat.digitChar (n % 10) :: ds,
        (utf8Bytes c).flatMap url.escapeByte = [c] := by
      intro c hc
      rcases List.mem_cons.mp hc with rfl | hc
      · exact escape_digitChar _ (Nat.mod_lt _ (by decide))
      · exact hds c hc
    unfold Nat.toDigitsCore
    simp only []
    split_ifs
    · exact hcons
    · exact ih _ _ hcons

/-- Escaping a string whose characters are all written unchanged gives the
string back. -/
theorem QueryEscape_of_unchanged (cs : List Char)
    (h : ∀ c ∈ cs, (utf8Bytes c).flatMap url.escapeByte = [c]) :
    url.QueryEscape (String.mk cs) = String.mk cs := by
  unfold url.QueryEscape
  congr 1
  induction cs with
  | nil => rfl
  | cons c cs ih =>
    simp only [List.flatMap_cons]
    rw [h c (List.mem_cons_self _ _), ih (fun x hx => h x (List.mem_cons_of_mem _ hx))]
    rfl

/-- The decimal form of a positive number is written unchanged by
`url.QueryEscape`. -/
theorem QueryEscape_Sprintf_d (n : Int) (hn : 0 < n) :
    url.QueryEscape (fmt.Sprintf_d n) = fmt.Sprintf_d n := by
  cases n with
  | ofNat m =>
    unfold fmt.Sprintf_d
    exact QueryEscape_of_unchanged _
      (escape_toDigitsCore _ _ [] (fun c hc => absurd hc (List.not_mem_nil c)))
  | negSucc m => exact absurd hn (by simp [Int.negSucc_lt_zero])

/-- A string has positive length exactly when it is not the empty string. -/
theorem goLen_pos_iff (s : String) : 0 < goLen s ↔ s ≠ "" := by
  rcases s with ⟨cs⟩
  unfold goLen
  cases cs with
  | nil => simp
  | cons c cs =>
    have hne : (⟨c :: cs⟩ : String) ≠ "" := by
      intro h
      have hd := congrArg String.data h
      simp at hd
    have hpos : 0 < (utf8Bytes c).length := by
      unfold utf8Bytes
      simp only []
      split_ifs <;> simp
    simp only [List.flatMap_cons, List.length_append, ne_eq, hne, not_false_eq_true, iff_true]
    omega

/-- C10: `QueryEncode` returns the parameters `limit=<PageSize>` (present
exactly when `PageSize > 0`), `page=<Page>` (exactly when `Page > 0`) and
`q=<escaped KeyWord>` (exactly when `KeyWord` is not empty), the numbers in
decimal, in this order and joined by `&`, and nothing else; when none of the
three is present the result is the empty string. -/
theorem QueryEncode_parameters (opt : SearchUsersOption) :
    opt.QueryEncode
        = "&".intercalate
            ((if 0 < opt.PageSize then ["limit=" ++ fmt.Sprintf_d opt.PageSize] else [])
              ++ (if 0 < opt.Page then ["page=" ++ fmt.Sprintf_d opt.Page] else [])
              ++ (if opt.KeyWord ≠ "" then ["q=" ++ url.QueryEscape opt.KeyWord] else []))
      ∧ (opt.Page ≤ 0 → opt.PageSize ≤ 0 → opt.KeyWord = "" → opt.QueryEncode = "") := by
  have hlp : goStringLess "limit" "page" = true := by decide
  have hpl : goStringLess "page" "limit" = false := by decide
  have hlq : goStringLess "limit" "q" = true := by decide
  have hql : goStringLess "q" "limit" = false := by decide
  have hpq : goStringLess "page" "q" = true := by decide
  have hqp : goStringLess "q" "page" = false := by decide
  have el : url.QueryEscape "limit" = "limit" := by decide
  have ep : url.QueryEscape "page" = "page" := by decide
  have eq : url.QueryEscape "q" = "q" := by decide
  have al : ∀ x : String, "limit" ++ "=" ++ x = "limit=" ++ x := by
    intro x; rw [String.append_assoc]; rfl
  have ap : ∀ x : String, "page" ++ "=" ++ x = "page=" ++ x := by
    intro x; rw [String.append_assoc]; rfl
  have aq : ∀ x : String, "q" ++ "=" ++ x = "q=" ++ x := by
    intro x; rw [String.append_assoc]; rfl
  have hmain : opt.QueryEncode
        = "&".intercalate
            ((if 0 < opt.PageSize then ["limit=" ++ fmt.Sprintf_d opt.PageSize] else [])
              ++ (if 0 < opt.Page then ["page=" ++ fmt.Sprintf_d opt.Page] else [])
              ++ (if opt.KeyWord ≠ "" then ["q=" ++ url.QueryEscape opt.KeyWord] else [])) := by
    unfold SearchUsersOption.QueryEncode
    simp only [gt_iff_lt, goLen_pos_iff]
    by_cases h1 : 0 < opt.Page <;> by_cases h2 : 0 < opt.PageSize <;>
      by_cases h3 : opt.KeyWord = "" <;>
      simp [h1, h2, h3, url.Values.Add, url.Values.Encode, url.Values.lookup, sort.Strings,
        sort.insert, hlp, hpl, hlq, hql, hpq, hqp, el, ep, eq, al, ap, aq,
        QueryEscape_Sprintf_d]
  refine ⟨hmain, ?_⟩
  intro h1 h2 h3
  rw [hmain]
  simp [not_lt.mpr h1, not_lt.mpr h2, h3]
  rfl

/-- Witness of C10: with no page, a negative page size and an empty keyword the
query string is empty; with all three set it lists `limit`, `page`, `q`. -/
theorem QueryEncode_parameters_witness :
    SearchUsersOption.QueryEncode { Page := 0, PageSize := -5, KeyWord := "" } = ""
      ∧ SearchUsersOption.QueryEncode { Page := 2, PageSize := 10, KeyWord := "a b&c" }
        = "&".intercalate ["limit=10", "page=2", "q=a+b%26c"] :=
  ⟨(QueryEncode_parameters { Page := 0, PageSize := -5, KeyWord := "" }).2
      (by decide) (by decide) rfl,
   (QueryEncode_parameters { Page := 2, PageSize := 10, KeyWord := "a b&c" }).1⟩
